import Mathlib

/-!
Package elasticsearch (go-elasticsearch): URL construction and response handling.

A shallow embedding of `es.go` (package `elasticsearch`): `mkURL`,
`handleResponse`, `Index` and `Delete`, together with the parts of the Go
standard library they call (`net/url` escaping and `url.Values.Encode`,
the struct-directed half of `encoding/json` decoding).

Go strings are byte sequences, so a string is a list of bytes (`Fin 256`).
-/

namespace Elasticsearch

/-! ## Strings and errors -/

/-- A Go `string`: an immutable sequence of bytes. -/
abbrev GoString := List (Fin 256)

/-- The byte of an ASCII character constant such as `'/'`. -/
def ch (c : Char) : Fin 256 := Fin.ofNat c.toNat

/-- The Go string of an ASCII string constant. -/
def ascii (s : String) : GoString := s.data.map ch

/-- Go `error` values that occur in the package. `errorString` is what
`errors.New` builds; the others are made by the standard library. -/
inductive GoError where
  /-- Value of `errors.New(text)`. -/
  | errorString (text : GoString)
  /-- Value of `url.EscapeError(s)`. -/
  | EscapeError (s : GoString)
  /-- A `*json.UnmarshalTypeError`: JSON value kind and the Go target. -/
  | UnmarshalTypeError (Value : GoString) (Target : GoString)
  /-- Any other library error (JSON syntax, I/O, marshalling, transport). -/
  | other (text : GoString)
  deriving DecidableEq, Repr

deriving instance DecidableEq for Except

/-! ## net/url: escaping -/

/-- The two escaping modes of `net/url` that matter here: a path segment
and a query component. -/
inductive encoding where
  | encodePathSegment
  | encodeQueryComponent
  deriving DecidableEq, Repr

open encoding

/-- Embedding of `shouldEscape(c, mode)` from `net/url` for the two modes
above: alphanumerics and `-_.~` are never escaped, the reserved characters
`$&+,/:;=?@` are all escaped in a query component and only `/;,?` in a path
segment, and everything else is escaped. -/
def shouldEscape (c : Fin 256) (mode : encoding) : Bool :=
  if (ch 'a' ≤ c ∧ c ≤ ch 'z') ∨ (ch 'A' ≤ c ∧ c ≤ ch 'Z') ∨ (ch '0' ≤ c ∧ c ≤ ch '9') then
    false
  else if c = ch '-' ∨ c = ch '_' ∨ c = ch '.' ∨ c = ch '~' then
    false
  else if c = ch '$' ∨ c = ch '&' ∨ c = ch '+' ∨ c = ch ',' ∨ c = ch '/' ∨ c = ch ':' ∨
      c = ch ';' ∨ c = ch '=' ∨ c = ch '?' ∨ c = ch '@' then
    match mode with
    | encodePathSegment => c = ch '/' ∨ c = ch ';' ∨ c = ch ',' ∨ c = ch '?'
    | encodeQueryComponent => true
  else
    true

/-- The table `upperhex = "0123456789ABCDEF"`. -/
def upperhex : GoString := ascii "0123456789ABCDEF"

/-- First loop of `escape`: the number of spaces written as `+` and the
number of bytes written as `%XX`. -/
def escapeCounts (mode : encoding) : GoString → Nat × Nat
  | [] => (0, 0)
  | c :: s =>
    let (spaceCount, hexCount) := escapeCounts mode s
    if shouldEscape c mode then
      if c = ch ' ' ∧ mode = encodeQueryComponent then (spaceCount + 1, hexCount)
      else (spaceCount, hexCount + 1)
    else (spaceCount, hexCount)

/-- What the second loop of `escape` writes for one input byte. -/
def escapeByte (mode : encoding) (c : Fin 256) : GoString :=
  if c = ch ' ' ∧ mode = encodeQueryComponent then [ch '+']
  else if shouldEscape c mode then
    [ch '%', upperhex.getD (c.val >>> 4) 0, upperhex.getD (c.val &&& 15) 0]
  else [c]

/-- Embedding of `escape(s, mode)` from `net/url`: the string itself when
nothing needs escaping, else the concatenation of the per-byte output. -/
def escape (s : GoString) (mode : encoding) : GoString :=
  let (spaceCount, hexCount) := escapeCounts mode s
  if spaceCount = 0 ∧ hexCount = 0 then s
  else s.flatMap (escapeByte mode)

/-- Embedding of `url.QueryEscape`. -/
def QueryEscape (s : GoString) : GoString := escape s encodeQueryComponent

/-- Embedding of `ishex`. -/
def ishex (c : Fin 256) : Bool :=
  (ch '0' ≤ c ∧ c ≤ ch '9') ∨ (ch 'a' ≤ c ∧ c ≤ ch 'f') ∨ (ch 'A' ≤ c ∧ c ≤ ch 'F')

/-- Embedding of `unhex`; the default branch is never reached on a byte
that passed `ishex`. -/
def unhex (c : Fin 256) : Nat :=
  if ch '0' ≤ c ∧ c ≤ ch '9' then c.val - (ch '0').val
  else if ch 'a' ≤ c ∧ c ≤ ch 'f' then c.val - (ch 'a').val + 10
  else if ch 'A' ≤ c ∧ c ≤ ch 'F' then c.val - (ch 'A').val + 10
  else 0

/-- First loop of `unescape`: the first malformed `%` sequence, if any
(at most three bytes starting at the `%`). -/
def unescapeCheck : GoString → Option GoString
  | [] => none
  | c :: rest =>
    if c = ch '%' then
      match rest with
      | a :: b :: rest' =>
        if ishex a ∧ ishex b then unescapeCheck rest' else some [c, a, b]
      | _ => some (c :: rest)
    else unescapeCheck rest

/-- Second loop of `unescape`, run on a string that passed the check. -/
def unescapeBuild (mode : encoding) : GoString → GoString
  | [] => []
  | c :: rest =>
    if c = ch '%' then
      match rest with
      | a :: b :: rest' =>
        Fin.ofNat ((unhex a <<< 4 ||| unhex b) % 256) :: unescapeBuild mode rest'
      | _ => []
    else if c = ch '+' then
      (if mode = encodeQueryComponent then ch ' ' else ch '+') :: unescapeBuild mode rest
    else c :: unescapeBuild mode rest

/-- Embedding of `unescape(s, mode)` from `net/url` for the two modes. -/
def unescape (s : GoString) (mode : encoding) : Except GoError GoString :=
  match unescapeCheck s with
  | some bad => .error (.EscapeError bad)
  | none => .ok (unescapeBuild mode s)

/-- Embedding of `url.PathUnescape`: percent-decoding of a path segment,
in which `+` stands for itself. -/
def PathUnescape (s : GoString) : Except GoError GoString := unescape s encodePathSegment

/-- Embedding of `url.QueryUnescape`: decoding of a query component, in
which `+` stands for a space. -/
def QueryUnescape (s : GoString) : Except GoError GoString := unescape s encodeQueryComponent

/-- What `unescape` in the given mode recovers from the escaped form of a
byte written by `QueryEscape`: the byte itself, except that a path decoder
reads the `+` written for a space as `+`. -/
def plusForSpace (mode : encoding) (c : Fin 256) : Fin 256 :=
  if c = ch ' ' ∧ mode = encodePathSegment then ch '+' else c

/-! ## net/url: Values -/

/-- Go's `<` on strings: bytewise lexicographic comparison. -/
def strLess : GoString → GoString → Bool
  | _, [] => false
  | [], _ :: _ => true
  | a :: s, b :: t => if a < b then true else if b < a then false else strLess s t

/-- Go's `<=` on strings. -/
def strLE (a b : GoString) : Prop := strLess b a = false

instance : DecidableRel strLE := fun a b => inferInstanceAs (Decidable (strLess b a = false))

/-- Embedding of `slices.Sort` on a slice of strings: the ascending
rearrangement of the slice. -/
def sortStrings (keys : List GoString) : List GoString := keys.insertionSort strLE

/-- Embedding of `strings.Join(elems, sep)`. -/
def Join : List GoString → GoString → GoString
  | [], _ => []
  | [e], _ => e
  | e :: e' :: rest, sep => e ++ sep ++ Join (e' :: rest) sep

/-- A Go `map[string]string`, given by its entries in the order in which a
`range` loop visits them. The keys of a map are pairwise distinct, and the
`nil` map is the empty list. -/
abbrev Params := List (GoString × GoString)

/-- The keys of a map are pairwise distinct. -/
def Params.WellFormed (params : Params) : Prop := (params.map Prod.fst).Nodup

/-- Embedding of `url.Values`, a `map[string][]string`, as an association
list with one entry per key. -/
abbrev Values := List (GoString × List GoString)

/-- Embedding of `Values.Set`: `v[key] = []string{value}`. -/
def Values.Set : Values → GoString → GoString → Values
  | [], key, value => [(key, [value])]
  | (k, vs) :: rest, key, value =>
    if k = key then (k, [value]) :: rest else (k, vs) :: Values.Set rest key value

/-- The map read `v[k]`: the `nil` slice when the key is absent. -/
def Values.index (v : Values) (k : GoString) : List GoString := (v.lookup k).getD []

/-- Embedding of `Values.Encode`: the keys are sorted, and for each key
and each of its values `QueryEscape(k) + "=" + QueryEscape(value)` is
appended to the buffer, preceded by `&` when the buffer is not empty. -/
def Values.Encode (v : Values) : GoString :=
  if v.length = 0 then []
  else
    let keys := sortStrings (v.map Prod.fst)
    keys.foldl (fun buf k =>
      let vs := Values.index v k
      let keyEscaped := QueryEscape k
      vs.foldl (fun buf value =>
        (if buf.length > 0 then buf ++ [ch '&'] else buf)
          ++ keyEscaped ++ [ch '='] ++ QueryEscape value) buf) []

/-! ## es.go: mkURL -/

/-- Reference to an ElasticSearch server. -/
structure ElasticSearch where
  /-- Base URL to elasticsearch. -/
  URL : GoString
  deriving DecidableEq, Repr

/-- The loop of `mkURL` that copies `params` into a fresh `url.Values`. -/
def mkValues (params : Params) : Values :=
  params.foldl (fun paramv kv => Values.Set paramv kv.1 kv.2) []

/-- Embedding of `(*ElasticSearch).mkURL`:
`fmt.Sprintf("%s/%s/%s/%s?%s", es.URL, QueryEscape(index),
QueryEscape(doctype), QueryEscape(id), paramv.Encode())`. -/
def ElasticSearch.mkURL (es : ElasticSearch) (index doctype id : GoString)
    (params : Params) : GoString :=
  let paramv := mkValues params
  es.URL ++ [ch '/'] ++ QueryEscape index ++ [ch '/'] ++ QueryEscape doctype ++ [ch '/']
    ++ QueryEscape id ++ [ch '?'] ++ Values.Encode paramv

/-- The value stored under a key of a map, the empty string when absent. -/
def valueOf (params : Params) (k : GoString) : GoString := (params.lookup k).getD []

/-- One `key=value` pair of the query string, form-encoded. -/
def encodePair (kv : GoString × GoString) : GoString :=
  QueryEscape kv.1 ++ [ch '='] ++ QueryEscape kv.2

/-- The entries of a map in ascending order of their keys. -/
def sortedEntries (params : Params) : Params :=
  (sortStrings (params.map Prod.fst)).map (fun k => (k, valueOf params k))

/-! ## encoding/json: decoding into the `response` struct -/

/-- A JSON value as the scanner of `encoding/json` delivers it: member
names and strings are unquoted, number literals are kept as written. -/
inductive JValue where
  | null
  | bool (b : Bool)
  | number (lit : GoString)
  | string (s : GoString)
  | array (elems : List JValue)
  | object (members : List (GoString × JValue))

/-- The parts of `encoding/json` that rest on tables and arithmetic outside
the package: case folding of member names (`foldName`, Unicode simple
folding) and the conversion of a number literal to `float64`
(`convertNumber`, which reports the range error of `strconv.ParseFloat`). -/
structure JSONLib where
  /-- Folded form of a member name; two names match when their folds agree. -/
  foldName : GoString → GoString
  /-- The error of converting a number literal to `float64`, if any. -/
  convertNumber : GoString → Option GoError

/-- The envelope `response` of `es.go`. `Source` is `none` for the `nil`
map; its values are kept as JSON values. -/
structure response where
  OK : Bool := false
  Index : GoString := []
  Type_ : GoString := []
  Id : GoString := []
  Found : Bool := false
  Source : Option (List (GoString × JValue)) := none

/-- The fields of `response`, in declaration order. -/
inductive Field where
  | OK | Index | Type_ | Id | Found | Source
  deriving DecidableEq, Repr

/-- The `json:"..."` tag of each field of `response`. -/
def Field.tag : Field → GoString
  | .OK => ascii "ok"
  | .Index => ascii "_index"
  | .Type_ => ascii "_type"
  | .Id => ascii "_id"
  | .Found => ascii "found"
  | .Source => ascii "_source"

/-- All fields of `response`, in declaration order. -/
def response.fields : List Field := [.OK, .Index, .Type_, .Id, .Found, .Source]

/-- Field lookup of the struct decoder: the field whose tag is the member
name, else the first field whose tag matches it under case folding. -/
def findField (lib : JSONLib) (key : GoString) : Option Field :=
  match response.fields.find? (fun f => f.tag = key) with
  | some f => some f
  | none => response.fields.find? (fun f => lib.foldName f.tag = lib.foldName key)

/-- The `Value` of an `UnmarshalTypeError` for a JSON value. -/
def JValue.kind : JValue → GoString
  | .null => ascii "null"
  | .bool _ => ascii "bool"
  | .number _ => ascii "number"
  | .string _ => ascii "string"
  | .array _ => ascii "array"
  | .object _ => ascii "object"

mutual
/-- The first error met when a JSON value is decoded into an `interface{}`:
only the conversion of a number can fail. -/
def ifaceError (lib : JSONLib) : JValue → Option GoError
  | .number lit => lib.convertNumber lit
  | .array elems => ifaceErrorList lib elems
  | .object members => ifaceErrorMembers lib members
  | _ => none
/-- The first such error among the elements of an array. -/
def ifaceErrorList (lib : JSONLib) : List JValue → Option GoError
  | [] => none
  | v :: rest => (ifaceError lib v).orElse (fun _ => ifaceErrorList lib rest)
/-- The first such error among the members of an object. -/
def ifaceErrorMembers (lib : JSONLib) : List (GoString × JValue) → Option GoError
  | [] => none
  | (_, v) :: rest => (ifaceError lib v).orElse (fun _ => ifaceErrorMembers lib rest)
end

/-- Assignment `m[k] = v` on a map kept as an association list. -/
def mapSet (m : List (GoString × JValue)) (k : GoString) (v : JValue) :
    List (GoString × JValue) :=
  match m with
  | [] => [(k, v)]
  | (k', v') :: rest => if k' = k then (k, v) :: rest else (k', v') :: mapSet rest k v

/-- Decoding of one JSON value into a `bool` field: `true` and `false`
are stored, `null` leaves the field alone, anything else is a type error. -/
def storeBool (target : GoString) (old : Bool) (v : JValue) : Bool × Option GoError :=
  match v with
  | .bool b => (b, none)
  | .null => (old, none)
  | other => (old, some (.UnmarshalTypeError other.kind target))

/-- Decoding of one JSON value into a `string` field. -/
def storeString (target : GoString) (old : GoString) (v : JValue) :
    GoString × Option GoError :=
  match v with
  | .string s => (s, none)
  | .null => (old, none)
  | other => (old, some (.UnmarshalTypeError other.kind target))

/-- Decoding of one JSON value into the `map[string]interface{}` field:
an object is merged into the map (made first when `nil`), `null` sets the
map to `nil`, anything else is a type error. -/
def storeMap (lib : JSONLib) (target : GoString) (old : Option (List (GoString × JValue)))
    (v : JValue) : Option (List (GoString × JValue)) × Option GoError :=
  match v with
  | .object members =>
    (some (members.foldl (fun m kv => mapSet m kv.1 kv.2) (old.getD [])),
      ifaceErrorMembers lib members)
  | .null => (none, none)
  | other => (old, some (.UnmarshalTypeError other.kind target))

/-- Decoding of one object member into the field it names. -/
def setField (lib : JSONLib) (r : response) (f : Field) (v : JValue) :
    response × Option GoError :=
  match f with
  | .OK => let (x, e) := storeBool f.tag r.OK v; ({ r with OK := x }, e)
  | .Index => let (x, e) := storeString f.tag r.Index v; ({ r with Index := x }, e)
  | .Type_ => let (x, e) := storeString f.tag r.Type_ v; ({ r with Type_ := x }, e)
  | .Id => let (x, e) := storeString f.tag r.Id v; ({ r with Id := x }, e)
  | .Found => let (x, e) := storeBool f.tag r.Found v; ({ r with Found := x }, e)
  | .Source => let (x, e) := storeMap lib f.tag r.Source v; ({ r with Source := x }, e)

/-- The struct decoder on the members of an object, in order: a member
that names no field is skipped, and of the errors only the first is kept
(`saveError`) while decoding goes on. -/
def decodeMembers (lib : JSONLib) (members : List (GoString × JValue))
    (start : response × Option GoError) : response × Option GoError :=
  members.foldl (fun acc kv =>
    match findField lib kv.1 with
    | none => acc
    | some f =>
      let (r, e) := setField lib acc.1 f kv.2
      (r, acc.2.orElse (fun _ => e))) start

/-- Decoding of a JSON value into `&response{}`: an object fills the
struct, `null` leaves it at its zero value, any other value is a type
error; a saved error is returned at the end. -/
def Unmarshal (lib : JSONLib) (v : JValue) : Except GoError response :=
  match v with
  | .object members =>
    match decodeMembers lib members ({}, none) with
    | (r, none) => .ok r
    | (_, some err) => .error err
  | .null => .ok {}
  | other => .error (.UnmarshalTypeError other.kind (ascii "response"))

/-- The kind of value the wire format gives each member of the envelope:
a boolean for `ok` and `found`, a string for `_index`, `_type` and `_id`,
an object for `_source`. -/
def Field.expects : Field → JValue → Bool
  | .OK, .bool _ => true
  | .Found, .bool _ => true
  | .Index, .string _ => true
  | .Type_, .string _ => true
  | .Id, .string _ => true
  | .Source, .object _ => true
  | _, _ => false

/-- Whether the decoder stores a JSON value into the field without a type
error: a value of the kind the field expects, or `null`. -/
def Field.accepts (f : Field) (v : JValue) : Bool :=
  match v with
  | .null => true
  | other => f.expects other

/-- A body that is valid JSON matching the expected envelope, in the words
of the wire format `{"ok": bool, "_index": string, "_type": string,
"_id": string, "found": bool, "_source": {...}}`: a JSON object in which
every member named by a tag of the envelope has the kind listed for it. -/
def matchesEnvelopeSpec : JValue → Bool
  | .object members =>
    members.all (fun kv => response.fields.all (fun f => kv.1 != f.tag || f.expects kv.2))
  | _ => false

/-! ## net/http -/

/-- An `http.Response` as far as `handleResponse` reads it. The body is
given by what the JSON scanner of `Decoder.Decode` makes of it: the first
JSON value of the stream, or the error (a syntax error, `io.EOF` for an
empty body, a read error). -/
structure Response where
  Status : GoString
  StatusCode : Int
  Body : Except GoError JValue

/-- Embedding of `json.NewDecoder(resp.Body).Decode(&response{})`. -/
def Decode (lib : JSONLib) (body : Except GoError JValue) : Except GoError response :=
  match body with
  | .error err => .error err
  | .ok v => Unmarshal lib v

/-- An `http.Request` without a body. -/
structure Request where
  Method : GoString
  URL : GoString
  deriving DecidableEq, Repr

/-- The calls of `es.go` that leave the package, with their outcomes:
`json.Marshal`, `http.DefaultClient.Post`, `http.NewRequest` with a `nil`
body, and `http.DefaultClient.Do`. -/
structure Net (Doc : Type) where
  Marshal : Doc → Except GoError GoString
  Post : (url contentType body : GoString) → Except GoError Response
  NewRequest : (method url : GoString) → Except GoError Request
  Do : Request → Except GoError Response

/-! ## es.go: handleResponse, Index, Delete -/

/-- Embedding of `handleResponse`. -/
def handleResponse (lib : JSONLib) (resp : Response) : Except GoError response :=
  if resp.StatusCode ≠ 200 then
    .error (.errorString resp.Status)
  else
    match Decode lib resp.Body with
    | .error err => .error err
    | .ok iresp =>
      if !iresp.OK then .error (.errorString (ascii "Response wasn't OK"))
      else .ok iresp

/-- Embedding of `(*ElasticSearch).Index`; the result is the Go pair
`(string, error)`, with `none` for the `nil` error. -/
def ElasticSearch.Index {Doc : Type} (lib : JSONLib) (net : Net Doc) (es : ElasticSearch)
    (index doctype id : GoString) (doc : Doc) (params : Params) : GoString × Option GoError :=
  match net.Marshal doc with
  | .error err => ([], some err)
  | .ok data =>
    match net.Post (es.mkURL index doctype id params) (ascii "application/json") data with
    | .error err => ([], some err)
    | .ok resp =>
      match handleResponse lib resp with
      | .error err => ([], some err)
      | .ok iresp => (iresp.Id, none)

/-- Embedding of `(*ElasticSearch).Delete`; the result is the Go pair
`(bool, error)`. -/
def ElasticSearch.Delete {Doc : Type} (lib : JSONLib) (net : Net Doc) (es : ElasticSearch)
    (index doctype id : GoString) (params : Params) : Bool × Option GoError :=
  match net.NewRequest (ascii "DELETE") (es.mkURL index doctype id params) with
  | .error err => (false, some err)
  | .ok req =>
    match net.Do req with
    | .error err => (false, some err)
    | .ok resp =>
      match handleResponse lib resp with
      | .error err => (false, some err)
      | .ok iresp => (iresp.Found, none)

/-! ## Fixtures -/

/-- Case folding restricted to ASCII: lower-case letters are raised, as
`foldName` does for every single-byte character. -/
def asciiFold (s : GoString) : GoString :=
  s.map (fun c => if ch 'a' ≤ c ∧ c ≤ ch 'z' then Fin.ofNat (c.val - 32) else c)

/-- The library on ASCII member names and numbers within `float64` range. -/
def asciiLib : JSONLib where
  foldName := asciiFold
  convertNumber := fun _ => none

/-- The envelope a server echoes for document 42 of `products/item`. -/
def envelope42 : JValue :=
  .object [(ascii "ok", .bool true), (ascii "_index", .string (ascii "products")),
    (ascii "_type", .string (ascii "item")), (ascii "_id", .string (ascii "42")),
    (ascii "found", .bool true),
    (ascii "_source", .object [(ascii "name", .string (ascii "widget"))])]

/-- A transport whose server answers every request with the same response;
documents are JSON values and always serialise (to a placeholder text). -/
def fixedNet (resp : Response) : Net JValue where
  Marshal := fun _ => .ok (ascii "doc")
  Post := fun _ _ _ => .ok resp
  NewRequest := fun method url => .ok ⟨method, url⟩
  Do := fun _ => .ok resp

end Elasticsearch

namespace Elasticsearch
open encoding

/-! ## Evaluation on sample inputs -/

theorem QueryEscape_sample : QueryEscape (ascii "a b/c?d") = ascii "a+b%2Fc%3Fd" := by decide

theorem QueryUnescape_sample :
    QueryUnescape (ascii "a+b%2Fc%3Fd") = .ok (ascii "a b/c?d") := by decide

theorem PathUnescape_sample :
    PathUnescape (ascii "a+b%2Fc%3Fd") = .ok (ascii "a+b/c?d") := by decide

theorem PathUnescape_malformed :
    PathUnescape (ascii "a%2") = .error (.EscapeError (ascii "%2")) := by decide

theorem mkURL_sample :
    ElasticSearch.mkURL ⟨ascii "http://h:9200"⟩ (ascii "a b") (ascii "i/t") (ascii "")
        [(ascii "version", ascii "3"), (ascii "routing", ascii "x y&z")]
      = ascii "http://h:9200/a+b/i%2Ft/?routing=x+y%26z&version=3" := by decide

/-! ## Escaping -/

set_option maxRecDepth 100000 in
theorem escapeByte_query_cases : ∀ c : Fin 256,
    (c = ch ' ' ∧ escapeByte encodeQueryComponent c = [ch '+']) ∨
    (c ≠ ch ' ' ∧ escapeByte encodeQueryComponent c =
        [ch '%', upperhex.getD (c.val >>> 4) 0, upperhex.getD (c.val &&& 15) 0] ∧
      ishex (upperhex.getD (c.val >>> 4) 0) = true ∧
      ishex (upperhex.getD (c.val &&& 15) 0) = true ∧
      Fin.ofNat ((unhex (upperhex.getD (c.val >>> 4) 0) <<< 4 |||
        unhex (upperhex.getD (c.val &&& 15) 0)) % 256) = c) ∨
    (escapeByte encodeQueryComponent c = [c] ∧ c ≠ ch '%' ∧ c ≠ ch '+' ∧ c ≠ ch ' ') := by
  decide!

set_option maxRecDepth 100000 in
theorem escapeByte_query_all : ∀ c : Fin 256,
    (escapeByte encodeQueryComponent c).all
      (fun x => x != ch '/' && x != ch '?' && x != ch '#' && x != ch '&' && x != ch '=') = true := by
  decide!

theorem shouldEscape_space : shouldEscape (ch ' ') encodeQueryComponent = true := by decide

theorem flatMap_of_counts_zero (mode : encoding) (s : GoString)
    (h : escapeCounts mode s = (0, 0)) : s.flatMap (escapeByte mode) = s := by
  induction s with
  | nil => rfl
  | cons c s ih =>
    unfold escapeCounts at h
    generalize escapeCounts mode s = p at h ih
    obtain ⟨sc, hc⟩ := p
    simp only [] at h
    by_cases hse : shouldEscape c mode = true
    · rw [if_pos hse] at h
      by_cases hsp : c = ch ' ' ∧ mode = encodeQueryComponent
      · rw [if_pos hsp] at h; simp at h
      · rw [if_neg hsp] at h; simp at h
    · rw [if_neg hse] at h
      have hb : escapeByte mode c = [c] := by
        unfold escapeByte
        have hsp : ¬ (c = ch ' ' ∧ mode = encodeQueryComponent) := by
          rintro ⟨h1, h2⟩
          subst h1; subst h2
          exact hse shouldEscape_space
        rw [if_neg hsp, if_neg hse]
      rw [List.flatMap_cons, hb, ih h]
      rfl

theorem escape_eq_flatMap (s : GoString) (mode : encoding) :
    escape s mode = s.flatMap (escapeByte mode) := by
  unfold escape
  cases hp : escapeCounts mode s with
  | mk sc hc =>
    simp only []
    by_cases h0 : sc = 0 ∧ hc = 0
    · rw [if_pos h0]
      obtain ⟨h1, h2⟩ := h0
      subst h1; subst h2
      exact (flatMap_of_counts_zero mode s hp).symm
    · rw [if_neg h0]

theorem QueryEscape_cons (c : Fin 256) (s : GoString) :
    QueryEscape (c :: s) = escapeByte encodeQueryComponent c ++ QueryEscape s := by
  unfold QueryEscape
  rw [escape_eq_flatMap, escape_eq_flatMap, List.flatMap_cons]

theorem QueryEscape_nil : QueryEscape [] = [] := rfl

theorem unescapeCheck_cons_ne (c : Fin 256) (rest : GoString) (h : c ≠ ch '%') :
    unescapeCheck (c :: rest) = unescapeCheck rest := by
  rcases rest with _ | ⟨a, _ | ⟨b, r⟩⟩ <;> simp [unescapeCheck, h]

theorem unescapeCheck_percent (a b : Fin 256) (rest : GoString)
    (ha : ishex a = true) (hb : ishex b = true) :
    unescapeCheck (ch '%' :: a :: b :: rest) = unescapeCheck rest := by
  rw [unescapeCheck]
  simp only [if_true, ha, hb, and_self]

theorem unescapeBuild_cons_ne (mode : encoding) (c : Fin 256) (rest : GoString)
    (h : c ≠ ch '%') (hp : c ≠ ch '+') :
    unescapeBuild mode (c :: rest) = c :: unescapeBuild mode rest := by
  rcases rest with _ | ⟨a, _ | ⟨b, r⟩⟩ <;> simp [unescapeBuild, h, hp]

theorem unescapeBuild_plus (mode : encoding) (rest : GoString) :
    unescapeBuild mode (ch '+' :: rest) =
      (if mode = encodeQueryComponent then ch ' ' else ch '+') :: unescapeBuild mode rest := by
  have h : ch '+' ≠ ch '%' := by decide
  rcases rest with _ | ⟨a, _ | ⟨b, r⟩⟩ <;> simp [unescapeBuild, h]

theorem unescapeBuild_percent (mode : encoding) (a b : Fin 256) (rest : GoString) :
    unescapeBuild mode (ch '%' :: a :: b :: rest) =
      Fin.ofNat ((unhex a <<< 4 ||| unhex b) % 256) :: unescapeBuild mode rest := by
  rw [unescapeBuild]
  simp only [if_true]

theorem unescapeCheck_escapeByte (c : Fin 256) (rest : GoString) :
    unescapeCheck (escapeByte encodeQueryComponent c ++ rest) = unescapeCheck rest := by
  rcases escapeByte_query_cases c with ⟨_, h⟩ | ⟨_, h, ha, hb, _⟩ | ⟨h, hp, _, _⟩
  · rw [h]
    exact unescapeCheck_cons_ne _ rest (by decide)
  · rw [h]
    exact unescapeCheck_percent _ _ rest ha hb
  · rw [h]
    exact unescapeCheck_cons_ne _ rest hp

theorem unescapeBuild_escapeByte (mode : encoding) (c : Fin 256) (rest : GoString) :
    unescapeBuild mode (escapeByte encodeQueryComponent c ++ rest) =
      plusForSpace mode c :: unescapeBuild mode rest := by
  rcases escapeByte_query_cases c with ⟨hc, h⟩ | ⟨hc, h, _, _, hv⟩ | ⟨h, hp, hq, hc⟩
  · rw [h]
    show unescapeBuild mode (ch '+' :: rest) = _
    rw [unescapeBuild_plus]
    subst hc
    cases mode <;> rfl
  · rw [h]
    show unescapeBuild mode (ch '%' :: _ :: _ :: rest) = _
    rw [unescapeBuild_percent, hv]
    unfold plusForSpace
    rw [if_neg (fun hh => hc hh.1)]
  · rw [h]
    show unescapeBuild mode (c :: rest) = _
    rw [unescapeBuild_cons_ne mode c rest hp hq]
    unfold plusForSpace
    rw [if_neg (fun hh => hc hh.1)]

theorem unescapeCheck_QueryEscape (s : GoString) : unescapeCheck (QueryEscape s) = none := by
  induction s with
  | nil => rfl
  | cons c s ih => rw [QueryEscape_cons, unescapeCheck_escapeByte, ih]

theorem unescapeBuild_QueryEscape (mode : encoding) (s : GoString) :
    unescapeBuild mode (QueryEscape s) = s.map (plusForSpace mode) := by
  induction s with
  | nil => rfl
  | cons c s ih => rw [QueryEscape_cons, unescapeBuild_escapeByte, ih, List.map_cons]

theorem unescape_QueryEscape (mode : encoding) (s : GoString) :
    unescape (QueryEscape s) mode = .ok (s.map (plusForSpace mode)) := by
  unfold unescape
  rw [unescapeCheck_QueryEscape, unescapeBuild_QueryEscape]

theorem QueryUnescape_QueryEscape (s : GoString) : QueryUnescape (QueryEscape s) = .ok s := by
  unfold QueryUnescape
  rw [unescape_QueryEscape]
  congr 1
  have : plusForSpace encodeQueryComponent = id := by
    funext c
    unfold plusForSpace
    rw [if_neg (fun hh => by cases hh.2)]
    rfl
  rw [this, List.map_id]

theorem PathUnescape_QueryEscape (s : GoString) :
    PathUnescape (QueryEscape s) = .ok (s.map (fun c => if c = ch ' ' then ch '+' else c)) := by
  unfold PathUnescape
  rw [unescape_QueryEscape]
  congr 2
  funext c
  unfold plusForSpace
  by_cases h : c = ch ' '
  · rw [if_pos ⟨h, rfl⟩, if_pos h]
  · rw [if_neg (fun hh => h hh.1), if_neg h]

theorem QueryEscape_injective (s t : GoString) (h : QueryEscape s = QueryEscape t) : s = t := by
  have hs := QueryUnescape_QueryEscape s
  rw [h, QueryUnescape_QueryEscape] at hs
  injection hs with hs
  exact hs.symm

theorem QueryEscape_safe (s : GoString) (x : Fin 256) (hx : x ∈ QueryEscape s) :
    x ≠ ch '/' ∧ x ≠ ch '?' ∧ x ≠ ch '#' ∧ x ≠ ch '&' ∧ x ≠ ch '=' := by
  unfold QueryEscape at hx
  rw [escape_eq_flatMap, List.mem_flatMap] at hx
  obtain ⟨c, _, hxc⟩ := hx
  have h := List.all_eq_true.1 (escapeByte_query_all c) x hxc
  simp only [Bool.and_eq_true, bne_iff_ne, ne_eq] at h
  obtain ⟨⟨⟨⟨h1, h2⟩, h3⟩, h4⟩, h5⟩ := h
  exact ⟨h1, h2, h3, h4, h5⟩

theorem split_at_separator (sep : Fin 256) (a a' r r' : GoString)
    (ha : sep ∉ a) (ha' : sep ∉ a') (h : a ++ sep :: r = a' ++ sep :: r') :
    a = a' ∧ r = r' := by
  induction a generalizing a' with
  | nil =>
    cases a' with
    | nil => simp at h; exact ⟨rfl, h⟩
    | cons y a' =>
      simp at h
      exact absurd (List.mem_cons.2 (Or.inl h.1)) ha'
  | cons x a ih =>
    cases a' with
    | nil =>
      simp at h
      exact absurd (List.mem_cons.2 (Or.inl h.1.symm)) ha
    | cons y a' =>
      simp only [List.cons_append, List.cons.injEq] at h
      obtain ⟨hxy, h⟩ := h
      have := ih a' (fun hm => ha (List.mem_cons_of_mem _ hm))
        (fun hm => ha' (List.mem_cons_of_mem _ hm)) h
      exact ⟨by rw [hxy, this.1], this.2⟩

/-- C1 at the index `my index`: the URL carries the segment `my+index`,
which a path decoder reads as `my+index` and not as `my index`; a space
in a segment is written in the query form `+`, not as `%20`. -/
theorem mkURL_space_in_segment :
    ElasticSearch.mkURL ⟨ascii "http://localhost:9200"⟩ (ascii "my index") (ascii "item")
        (ascii "42") []
      = ascii "http://localhost:9200/my+index/item/42?" ∧
    PathUnescape (ascii "my+index") = .ok (ascii "my+index") ∧
    PathUnescape (QueryEscape (ascii "my index")) ≠ .ok (ascii "my index") := by
  decide

/-- C8: for a fixed base URL and fixed params, `mkURL` is injective in
`(index, doctype, id)`; an escaped segment contains none of `/`, `?`
and `#`. -/
theorem mkURL_injective (es : ElasticSearch) (params : Params)
    (index doctype id index' doctype' id' : GoString)
    (h : es.mkURL index doctype id params = es.mkURL index' doctype' id' params) :
    (index = index' ∧ doctype = doctype' ∧ id = id') ∧
    ∀ s : GoString, ch '/' ∉ QueryEscape s ∧ ch '?' ∉ QueryEscape s ∧
      ch '#' ∉ QueryEscape s := by
  have hsafe : ∀ s : GoString, ch '/' ∉ QueryEscape s ∧ ch '?' ∉ QueryEscape s ∧
      ch '#' ∉ QueryEscape s := fun s =>
    ⟨fun hm => (QueryEscape_safe s _ hm).1 rfl, fun hm => (QueryEscape_safe s _ hm).2.1 rfl,
      fun hm => (QueryEscape_safe s _ hm).2.2.1 rfl⟩
  refine ⟨?_, hsafe⟩
  unfold ElasticSearch.mkURL at h
  simp only [List.append_assoc, List.singleton_append] at h
  have h1 := List.append_cancel_left h
  injection h1 with _ h1
  obtain ⟨hi, h2⟩ := split_at_separator (ch '/') _ _ _ _ (hsafe index).1 (hsafe index').1 h1
  obtain ⟨hd, h3⟩ := split_at_separator (ch '/') _ _ _ _ (hsafe doctype).1 (hsafe doctype').1 h2
  obtain ⟨hid, _⟩ := split_at_separator (ch '?') _ _ _ _ (hsafe id).2.1 (hsafe id').2.1 h3
  exact ⟨QueryEscape_injective _ _ hi, QueryEscape_injective _ _ hd,
    QueryEscape_injective _ _ hid⟩

theorem mkURL_injective_witness :
    (ascii "a/b" = ascii "a/b" ∧ ascii "c?d" = ascii "c?d" ∧ ascii "e f" = ascii "e f") :=
  (mkURL_injective ⟨ascii "http://localhost:9200"⟩ [(ascii "routing", ascii "x")]
    (ascii "a/b") (ascii "c?d") (ascii "e f") (ascii "a/b") (ascii "c?d") (ascii "e f") rfl).1

/-! ## Query string -/

theorem strLess_nil_right (a : GoString) : strLess a [] = false := by
  cases a <;> rfl

theorem strLess_cons_cons (a b : Fin 256) (s t : GoString) :
    strLess (a :: s) (b :: t) =
      if a < b then true else if b < a then false else strLess s t := by
  rw [strLess]

theorem strLess_asymm (a b : GoString) (h : strLess a b = true) : strLess b a = false := by
  induction a generalizing b with
  | nil => exact strLess_nil_right b
  | cons x s ih =>
    cases b with
    | nil => rw [strLess_nil_right] at h; cases h
    | cons y t =>
      rw [strLess_cons_cons] at h ⊢
      rcases lt_trichotomy x y with hlt | heq | hgt
      · rw [if_neg (lt_asymm hlt), if_pos hlt]
      · subst heq
        rw [if_neg (lt_irrefl x), if_neg (lt_irrefl x)] at h ⊢
        exact ih t h
      · rw [if_neg (lt_asymm hgt), if_pos hgt] at h; cases h

theorem strLess_trans (a b c : GoString) (h1 : strLess a b = true) (h2 : strLess b c = true) :
    strLess a c = true := by
  induction a generalizing b c with
  | nil =>
    cases c with
    | nil => rw [strLess_nil_right] at h2; cases h2
    | cons z u => rfl
  | cons x s ih =>
    cases b with
    | nil => rw [strLess_nil_right] at h1; cases h1
    | cons y t =>
      cases c with
      | nil => rw [strLess_nil_right] at h2; cases h2
      | cons z u =>
        rw [strLess_cons_cons] at h1 h2 ⊢
        rcases lt_trichotomy x y with hxy | hxy | hxy
        · rcases lt_trichotomy y z with hyz | hyz | hyz
          · rw [if_pos (lt_trans hxy hyz)]
          · subst hyz; rw [if_pos hxy]
          · rw [if_neg (lt_asymm hyz), if_pos hyz] at h2; cases h2
        · subst hxy
          rw [if_neg (lt_irrefl x), if_neg (lt_irrefl x)] at h1
          rcases lt_trichotomy x z with hyz | hyz | hyz
          · rw [if_pos hyz]
          · subst hyz
            rw [if_neg (lt_irrefl x), if_neg (lt_irrefl x)] at h2 ⊢
            exact ih t u h1 h2
          · rw [if_neg (lt_asymm hyz), if_pos hyz] at h2; cases h2
        · rw [if_neg (lt_asymm hxy), if_pos hxy] at h1; cases h1

theorem strLess_connex (a b : GoString) (h1 : strLess a b = false) (h2 : strLess b a = false) :
    a = b := by
  induction a generalizing b with
  | nil =>
    cases b with
    | nil => rfl
    | cons y t => cases h1
  | cons x s ih =>
    cases b with
    | nil => cases h2
    | cons y t =>
      rw [strLess_cons_cons] at h1 h2
      rcases lt_trichotomy x y with hlt | heq | hgt
      · rw [if_pos hlt] at h1; cases h1
      · subst heq
        rw [if_neg (lt_irrefl x), if_neg (lt_irrefl x)] at h1 h2
        rw [ih t h1 h2]
      · rw [if_pos hgt] at h2; cases h2

theorem strLE_total (a b : GoString) : strLE a b ∨ strLE b a := by
  unfold strLE
  cases h : strLess b a with
  | false => exact Or.inl rfl
  | true => exact Or.inr (strLess_asymm b a h)

theorem strLE_trans (a b c : GoString) (hab : strLE a b) (hbc : strLE b c) : strLE a c := by
  unfold strLE at *
  cases h : strLess c a with
  | false => rfl
  | true =>
    cases hba : strLess a b with
    | false =>
      have := strLess_connex a b hba hab
      subst this
      rw [h] at hbc; cases hbc
    | true =>
      have := strLess_trans c a b h hba
      rw [this] at hbc; cases hbc

theorem sortStrings_perm (keys : List GoString) : (sortStrings keys).Perm keys :=
  List.perm_insertionSort strLE keys

theorem sortStrings_sorted (keys : List GoString) : (sortStrings keys).Pairwise strLE :=
  haveI : IsTotal GoString strLE := ⟨strLE_total⟩
  haveI : IsTrans GoString strLE := ⟨strLE_trans⟩
  List.sorted_insertionSort strLE keys

theorem sortStrings_strict (keys : List GoString) (hnd : keys.Nodup) :
    (sortStrings keys).Pairwise (fun a b => strLess a b = true) := by
  have hs := sortStrings_sorted keys
  have hn : (sortStrings keys).Nodup := (sortStrings_perm keys).nodup_iff.2 hnd
  have := List.Pairwise.and hs hn
  refine this.imp ?_
  intro a b ⟨hle, hne⟩
  cases h : strLess a b with
  | true => rfl
  | false => exact absurd (strLess_connex a b h hle) hne

theorem Values.Set_of_not_mem (v : Values) (key value : GoString)
    (h : key ∉ v.map Prod.fst) : Values.Set v key value = v ++ [(key, [value])] := by
  induction v with
  | nil => rfl
  | cons e v ih =>
    obtain ⟨k, vs⟩ := e
    rw [List.map_cons, List.mem_cons, not_or] at h
    rw [Values.Set, if_neg (fun hk => h.1 hk.symm), ih h.2]
    rfl

theorem foldl_Set (acc : Values) (params : Params)
    (h : (acc.map Prod.fst ++ params.map Prod.fst).Nodup) :
    params.foldl (fun paramv kv => Values.Set paramv kv.1 kv.2) acc =
      acc ++ params.map (fun kv => (kv.1, [kv.2])) := by
  induction params generalizing acc with
  | nil => simp
  | cons kv params ih =>
    rw [List.foldl_cons]
    have hk : kv.1 ∉ acc.map Prod.fst := by
      intro hm
      rw [List.map_cons] at h
      exact (List.nodup_append.1 h).2.2 hm (List.mem_cons_self _ _)
    rw [Values.Set_of_not_mem acc kv.1 kv.2 hk, ih]
    · simp
    · rw [List.map_append, List.map_cons, List.map_nil, List.append_assoc]
      exact h

theorem mkValues_eq (params : Params) (h : params.WellFormed) :
    mkValues params = params.map (fun kv => (kv.1, [kv.2])) := by
  unfold mkValues
  rw [foldl_Set [] params (by simpa using h)]
  rfl

theorem lookup_of_mem (params : Params) (h : params.WellFormed) (kv : GoString × GoString)
    (hm : kv ∈ params) : params.lookup kv.1 = some kv.2 := by
  induction params with
  | nil => cases hm
  | cons e params ih =>
    obtain ⟨k, v⟩ := e
    unfold Params.WellFormed at h
    rw [List.map_cons, List.nodup_cons] at h
    rcases List.mem_cons.1 hm with heq | hmem
    · subst heq
      simp [List.lookup]
    · have hne : kv.1 ≠ k := by
        intro hk
        have hin : kv.1 ∈ params.map Prod.fst := List.mem_map_of_mem Prod.fst hmem
        rw [hk] at hin
        exact h.1 hin
      rw [List.lookup_cons]
      have : (kv.1 == k) = false := by simpa using hne
      rw [this]
      exact ih h.2 hmem

theorem lookup_map_single (params : Params) (k : GoString) :
    (params.map (fun kv => (kv.1, [kv.2]))).lookup k =
      (params.lookup k).map (fun v => [v]) := by
  induction params with
  | nil => rfl
  | cons e params ih =>
    rw [List.map_cons, List.lookup_cons, List.lookup_cons]
    cases (k == e.1)
    · exact ih
    · rfl

theorem index_mkValues (params : Params) (h : params.WellFormed) (k : GoString)
    (hk : k ∈ params.map Prod.fst) :
    Values.index (mkValues params) k = [valueOf params k] := by
  rw [mkValues_eq params h]
  unfold Values.index valueOf
  obtain ⟨kv, hm, rfl⟩ := List.mem_map.1 hk
  rw [lookup_map_single, lookup_of_mem params h kv hm]
  rfl

theorem Join_cons_append (sep buf p : GoString) (rest : List GoString) :
    Join ((buf ++ sep ++ p) :: rest) sep = buf ++ sep ++ Join (p :: rest) sep := by
  cases rest with
  | nil => rfl
  | cons q r =>
    show (buf ++ sep ++ p) ++ sep ++ Join (q :: r) sep = buf ++ sep ++ (p ++ sep ++ Join (q :: r) sep)
    simp only [List.append_assoc]

theorem foldl_buffer_eq_Join (sep : GoString) (parts : List GoString) (buf : GoString)
    (hbuf : buf ≠ []) :
    parts.foldl (fun b p => (if b.length > 0 then b ++ sep else b) ++ p) buf =
      Join (buf :: parts) sep := by
  induction parts generalizing buf with
  | nil => rfl
  | cons p rest ih =>
    rw [List.foldl_cons]
    have hlen : buf.length > 0 := List.length_pos.2 hbuf
    rw [if_pos hlen, ih _ (by simp [hbuf]), Join_cons_append]
    rfl

theorem foldl_eq_Join (sep : GoString) (parts : List GoString)
    (hne : ∀ p ∈ parts, p ≠ []) :
    parts.foldl (fun b p => (if b.length > 0 then b ++ sep else b) ++ p) [] =
      Join parts sep := by
  cases parts with
  | nil => rfl
  | cons p rest =>
    rw [List.foldl_cons]
    have : (if ([] : GoString).length > 0 then [] ++ sep else []) ++ p = p := by simp
    rw [this]
    exact foldl_buffer_eq_Join sep rest p (hne p (List.mem_cons_self _ _))

theorem foldl_congr_of_mem {α β : Type} (f g : β → α → β) (l : List α) (b : β)
    (h : ∀ a ∈ l, ∀ b, f b a = g b a) : l.foldl f b = l.foldl g b := by
  induction l generalizing b with
  | nil => rfl
  | cons a l ih =>
    rw [List.foldl_cons, List.foldl_cons, h a (List.mem_cons_self _ _) b]
    exact ih _ (fun a' ha' => h a' (List.mem_cons_of_mem _ ha'))

theorem encodePair_ne_nil (kv : GoString × GoString) : encodePair kv ≠ [] := by
  unfold encodePair
  simp

theorem Encode_mkValues (params : Params) (h : params.WellFormed) :
    Values.Encode (mkValues params) = Join ((sortedEntries params).map encodePair) [ch '&'] := by
  unfold Values.Encode
  by_cases h0 : (mkValues params).length = 0
  · rw [if_pos h0]
    rw [mkValues_eq params h, List.length_map] at h0
    have : params = [] := List.length_eq_zero.1 h0
    subst this
    rfl
  · rw [if_neg h0]
    simp only []
    have hkeys : (mkValues params).map Prod.fst = params.map Prod.fst := by
      rw [mkValues_eq params h, List.map_map]; rfl
    rw [hkeys]
    have hstep : ∀ k ∈ sortStrings (params.map Prod.fst), ∀ buf : GoString,
        (Values.index (mkValues params) k).foldl (fun buf value =>
          (if buf.length > 0 then buf ++ [ch '&'] else buf)
            ++ QueryEscape k ++ [ch '='] ++ QueryEscape value) buf =
        (if buf.length > 0 then buf ++ [ch '&'] else buf) ++ encodePair (k, valueOf params k) := by
      intro k hk buf
      rw [index_mkValues params h k ((sortStrings_perm _).mem_iff.1 hk)]
      simp only [List.foldl_cons, List.foldl_nil, encodePair, List.append_assoc]
    rw [foldl_congr_of_mem _ _ _ _ hstep]
    unfold sortedEntries
    rw [List.map_map, ← foldl_eq_Join [ch '&'] _ (by
      intro p hp
      obtain ⟨k, _, rfl⟩ := List.mem_map.1 hp
      exact encodePair_ne_nil _), List.foldl_map]
    rfl

theorem sortedEntries_perm (params : Params) (h : params.WellFormed) :
    (sortedEntries params).Perm params := by
  unfold sortedEntries
  have h1 := (sortStrings_perm (params.map Prod.fst)).map (fun k => (k, valueOf params k))
  refine h1.trans ?_
  rw [List.map_map]
  have : params.map ((fun k => (k, valueOf params k)) ∘ Prod.fst) = params.map id := by
    apply List.map_congr_left
    intro kv hm
    show (kv.1, valueOf params kv.1) = kv
    unfold valueOf
    rw [lookup_of_mem params h kv hm]
    rfl
  rw [this, List.map_id]

theorem sortedEntries_sorted (params : Params) (h : params.WellFormed) :
    (sortedEntries params).Pairwise (fun a b => strLess a.1 b.1 = true) := by
  unfold sortedEntries
  rw [List.pairwise_map]
  exact sortStrings_strict _ h

theorem sorted_entries_unique (l l' : Params) (hp : l.Perm l')
    (hl : l.Pairwise (fun a b => strLess a.1 b.1 = true))
    (hl' : l'.Pairwise (fun a b => strLess a.1 b.1 = true)) : l = l' :=
  haveI : IsAntisymm (GoString × GoString) (fun a b => strLess a.1 b.1 = true) :=
    ⟨fun a b hab hba => by rw [strLess_asymm _ _ hab] at hba; cases hba⟩
  List.eq_of_perm_of_sorted hp hl hl'

theorem WellFormed_of_perm (params params' : Params) (hp : params'.Perm params)
    (h : params.WellFormed) : params'.WellFormed :=
  ((hp.map Prod.fst).nodup_iff).2 h

theorem Encode_mkValues_perm (params params' : Params) (hp : params'.Perm params)
    (h : params.WellFormed) :
    Values.Encode (mkValues params') = Values.Encode (mkValues params) := by
  have h' := WellFormed_of_perm params params' hp h
  rw [Encode_mkValues params h, Encode_mkValues params' h']
  rw [sorted_entries_unique (sortedEntries params') (sortedEntries params)
    (((sortedEntries_perm params' h').trans hp).trans (sortedEntries_perm params h).symm)
    (sortedEntries_sorted params' h') (sortedEntries_sorted params h)]

/-- C10: for a map `params` (distinct keys), the query string of the URL is
the list of its `key=value` pairs, each form-encoded, in ascending key
order and joined by `&`; any other iteration order of the same entries
gives the same URL; with nil or empty params the query string is empty and
the URL ends with `?`. -/
theorem mkURL_query_sorted (es : ElasticSearch) (index doctype id : GoString)
    (params : Params) (hwf : params.WellFormed) :
    (∃ sorted : Params, sorted.Perm params ∧
      sorted.Pairwise (fun a b => strLess a.1 b.1 = true) ∧
      es.mkURL index doctype id params =
        es.URL ++ [ch '/'] ++ QueryEscape index ++ [ch '/'] ++ QueryEscape doctype ++ [ch '/']
          ++ QueryEscape id ++ [ch '?']
          ++ Join (sorted.map (fun kv => QueryEscape kv.1 ++ [ch '='] ++ QueryEscape kv.2))
              [ch '&']) ∧
    (∀ params' : Params, params'.Perm params →
      es.mkURL index doctype id params' = es.mkURL index doctype id params) ∧
    es.mkURL index doctype id [] =
      es.URL ++ [ch '/'] ++ QueryEscape index ++ [ch '/'] ++ QueryEscape doctype ++ [ch '/']
        ++ QueryEscape id ++ [ch '?'] := by
  refine ⟨⟨sortedEntries params, sortedEntries_perm params hwf,
    sortedEntries_sorted params hwf, ?_⟩, fun params' hp => ?_, ?_⟩
  · unfold ElasticSearch.mkURL
    simp only []
    rw [Encode_mkValues params hwf]
    rfl
  · unfold ElasticSearch.mkURL
    simp only []
    rw [Encode_mkValues_perm params params' hp hwf]
  · unfold ElasticSearch.mkURL
    simp only []
    show _ ++ ([] : GoString) = _
    rw [List.append_nil]

theorem mkURL_query_sorted_witness :
    ElasticSearch.mkURL ⟨ascii "http://localhost:9200"⟩ (ascii "products") (ascii "item")
        (ascii "42") [(ascii "routing", ascii "a b"), (ascii "version", ascii "3")]
      = ElasticSearch.mkURL ⟨ascii "http://localhost:9200"⟩ (ascii "products") (ascii "item")
        (ascii "42") [(ascii "version", ascii "3"), (ascii "routing", ascii "a b")] :=
  (mkURL_query_sorted ⟨ascii "http://localhost:9200"⟩ (ascii "products") (ascii "item")
      (ascii "42") [(ascii "version", ascii "3"), (ascii "routing", ascii "a b")]
      (by unfold Params.WellFormed; decide)).2.1
    [(ascii "routing", ascii "a b"), (ascii "version", ascii "3")] (List.Perm.swap _ _ _)

/-! ## Response handling -/

theorem decode_envelope42 (lib : JSONLib) :
    Decode lib (.ok envelope42) = .ok
      { OK := true, Index := ascii "products", Type_ := ascii "item", Id := ascii "42",
        Found := true, Source := some [(ascii "name", .string (ascii "widget"))] } := by
  rfl

theorem handleResponse_of_decode_ok (lib : JSONLib) (resp : Response) (env : response)
    (hs : resp.StatusCode = 200) (hd : Decode lib resp.Body = .ok env) :
    handleResponse lib resp =
      if env.OK then .ok env else .error (.errorString (ascii "Response wasn't OK")) := by
  unfold handleResponse
  rw [if_neg (by simp [hs]), hd]
  cases h : env.OK <;> simp [h]

theorem handleResponse_of_decode_error (lib : JSONLib) (resp : Response) (err : GoError)
    (hs : resp.StatusCode = 200) (hd : Decode lib resp.Body = .error err) :
    handleResponse lib resp = .error err := by
  unfold handleResponse
  rw [if_neg (by simp [hs]), hd]

theorem handleResponse_of_status (lib : JSONLib) (resp : Response)
    (hs : resp.StatusCode ≠ 200) :
    handleResponse lib resp = .error (.errorString resp.Status) := by
  unfold handleResponse
  rw [if_pos hs]

/-- C2: for a response whose status code is not 200, whatever its body,
`handleResponse` returns no envelope and the error `errors.New(resp.Status)`;
replacing the body by any other one (a well-formed envelope with `ok=true`
included) does not change the result. -/
theorem handleResponse_non200 (lib : JSONLib) (resp : Response)
    (hs : resp.StatusCode ≠ 200) :
    handleResponse lib resp = .error (.errorString resp.Status) ∧
    ∀ body : Except GoError JValue,
      handleResponse lib { resp with Body := body } = handleResponse lib resp := by
  refine ⟨handleResponse_of_status lib resp hs, fun body => ?_⟩
  rw [handleResponse_of_status lib resp hs]
  exact handleResponse_of_status lib { resp with Body := body } hs

theorem handleResponse_non200_witness :
    (handleResponse asciiLib ⟨ascii "201 Created", 201, .ok envelope42⟩
        = .error (.errorString (ascii "201 Created"))) ∧
    (handleResponse asciiLib ⟨ascii "404 Not Found", 404, .ok envelope42⟩
        = .error (.errorString (ascii "404 Not Found"))) :=
  ⟨(handleResponse_non200 asciiLib ⟨ascii "201 Created", 201, .ok envelope42⟩
      (by decide)).1,
   (handleResponse_non200 asciiLib ⟨ascii "404 Not Found", 404, .ok envelope42⟩
      (by decide)).1⟩

/-- C3: a response with status 200 whose body decodes to an envelope with
`ok=false` yields no envelope and the error "Response wasn't OK", whatever
the other fields are. The two checks are independent: some response fails
the status check although its body decodes with `ok=true`, and some
response passes the status check and fails the `ok` check. -/
theorem handleResponse_ok_false (lib : JSONLib) :
    (∀ (resp : Response) (env : response), resp.StatusCode = 200 →
      Decode lib resp.Body = .ok env → env.OK = false →
      handleResponse lib resp = .error (.errorString (ascii "Response wasn't OK"))) ∧
    (∃ (resp : Response) (env : response), resp.StatusCode ≠ 200 ∧
      Decode lib resp.Body = .ok env ∧ env.OK = true ∧
      handleResponse lib resp = .error (.errorString resp.Status)) ∧
    (∃ (resp : Response) (env : response), resp.StatusCode = 200 ∧
      Decode lib resp.Body = .ok env ∧ env.OK = false ∧
      handleResponse lib resp = .error (.errorString (ascii "Response wasn't OK"))) := by
  refine ⟨fun resp env hs hd hok => ?_, ?_, ?_⟩
  · rw [handleResponse_of_decode_ok lib resp env hs hd, hok]; rfl
  · exact ⟨⟨ascii "404 Not Found", 404, .ok envelope42⟩, _, by decide,
      decode_envelope42 lib, rfl, rfl⟩
  · exact ⟨⟨ascii "200 OK", 200, .ok (.object [(ascii "ok", .bool false),
      (ascii "_id", .string (ascii "42")), (ascii "found", .bool true)])⟩,
      { Id := ascii "42", Found := true }, rfl, rfl, rfl, rfl⟩

theorem handleResponse_ok_false_witness :
    handleResponse asciiLib ⟨ascii "200 OK", 200, .ok (.object [(ascii "ok", .bool false),
      (ascii "_id", .string (ascii "7")), (ascii "found", .bool true)])⟩
      = .error (.errorString (ascii "Response wasn't OK")) :=
  (handleResponse_ok_false asciiLib).1 _ { Id := ascii "7", Found := true } rfl rfl rfl

/-- C4: when the document serialises and the transport delivers a response
with status 200 whose body decodes to an envelope with `ok=true`, `Index`
returns the `_id` of the envelope and a nil error, whatever `id` was passed;
so a non-empty `_id` gives a non-empty result, also for an empty `id`. -/
theorem Index_returns_envelope_id {Doc : Type} (lib : JSONLib) (net : Net Doc)
    (es : ElasticSearch) (index doctype id : GoString) (doc : Doc) (params : Params)
    (data : GoString) (resp : Response) (env : response)
    (hm : net.Marshal doc = .ok data)
    (hp : net.Post (es.mkURL index doctype id params) (ascii "application/json") data = .ok resp)
    (hs : resp.StatusCode = 200) (hd : Decode lib resp.Body = .ok env) (hok : env.OK = true) :
    es.Index lib net index doctype id doc params = (env.Id, none) ∧
    (env.Id ≠ [] → (es.Index lib net index doctype id doc params).1 ≠ []) := by
  have h : es.Index lib net index doctype id doc params = (env.Id, none) := by
    unfold ElasticSearch.Index
    rw [hm]; simp only []
    rw [hp]; simp only []
    rw [handleResponse_of_decode_ok lib resp env hs hd, hok]; rfl
  exact ⟨h, fun hne => by rw [h]; exact hne⟩

theorem Index_returns_envelope_id_witness :
    (ElasticSearch.Index asciiLib (fixedNet ⟨ascii "200 OK", 200, .ok envelope42⟩)
        ⟨ascii "http://localhost:9200"⟩ (ascii "products") (ascii "item") (ascii "42")
        (JValue.object [(ascii "name", .string (ascii "widget"))]) []
      = (ascii "42", none)) ∧
    (ElasticSearch.Index asciiLib (fixedNet ⟨ascii "200 OK", 200, .ok envelope42⟩)
        ⟨ascii "http://localhost:9200"⟩ (ascii "products") (ascii "item") (ascii "")
        (JValue.object [(ascii "name", .string (ascii "widget"))]) []).1 ≠ [] :=
  ⟨(Index_returns_envelope_id asciiLib (fixedNet ⟨ascii "200 OK", 200, .ok envelope42⟩)
      ⟨ascii "http://localhost:9200"⟩ (ascii "products") (ascii "item") (ascii "42")
      (JValue.object [(ascii "name", .string (ascii "widget"))]) [] (ascii "doc")
      ⟨ascii "200 OK", 200, .ok envelope42⟩ _ rfl rfl rfl (decode_envelope42 asciiLib) rfl).1,
   (Index_returns_envelope_id asciiLib (fixedNet ⟨ascii "200 OK", 200, .ok envelope42⟩)
      ⟨ascii "http://localhost:9200"⟩ (ascii "products") (ascii "item") (ascii "")
      (JValue.object [(ascii "name", .string (ascii "widget"))]) [] (ascii "doc")
      ⟨ascii "200 OK", 200, .ok envelope42⟩ _ rfl rfl rfl (decode_envelope42 asciiLib) rfl).2
      (by decide)⟩

/-- C5: when the request is built and the transport delivers a response
with status 200 whose body decodes to an envelope with `ok=true`, `Delete`
returns the `found` field of the envelope and a nil error, for `found=true`
and for `found=false` alike. -/
theorem Delete_returns_envelope_found {Doc : Type} (lib : JSONLib) (net : Net Doc)
    (es : ElasticSearch) (index doctype id : GoString) (params : Params)
    (req : Request) (resp : Response) (env : response)
    (hr : net.NewRequest (ascii "DELETE") (es.mkURL index doctype id params) = .ok req)
    (hp : net.Do req = .ok resp)
    (hs : resp.StatusCode = 200) (hd : Decode lib resp.Body = .ok env) (hok : env.OK = true) :
    es.Delete lib net index doctype id params = (env.Found, none) ∧
    (env.Found = true → es.Delete lib net index doctype id params = (true, none)) ∧
    (env.Found = false → es.Delete lib net index doctype id params = (false, none)) := by
  have h : es.Delete lib net index doctype id params = (env.Found, none) := by
    unfold ElasticSearch.Delete
    rw [hr]; simp only []
    rw [hp]; simp only []
    rw [handleResponse_of_decode_ok lib resp env hs hd, hok]; rfl
  exact ⟨h, fun hf => by rw [h, hf], fun hf => by rw [h, hf]⟩

theorem Delete_returns_envelope_found_witness :
    (ElasticSearch.Delete asciiLib (fixedNet ⟨ascii "200 OK", 200, .ok envelope42⟩)
        ⟨ascii "http://localhost:9200"⟩ (ascii "products") (ascii "item") (ascii "42") []
      = (true, none)) ∧
    (ElasticSearch.Delete asciiLib (fixedNet ⟨ascii "200 OK", 200,
          .ok (.object [(ascii "ok", .bool true), (ascii "found", .bool false)])⟩)
        ⟨ascii "http://localhost:9200"⟩ (ascii "products") (ascii "item") (ascii "42") []
      = (false, none)) :=
  ⟨(Delete_returns_envelope_found asciiLib (fixedNet ⟨ascii "200 OK", 200, .ok envelope42⟩)
      ⟨ascii "http://localhost:9200"⟩ (ascii "products") (ascii "item") (ascii "42") []
      _ ⟨ascii "200 OK", 200, .ok envelope42⟩ _ rfl rfl rfl (decode_envelope42 asciiLib) rfl).1,
   (Delete_returns_envelope_found asciiLib (fixedNet ⟨ascii "200 OK", 200,
          .ok (.object [(ascii "ok", .bool true), (ascii "found", .bool false)])⟩)
      ⟨ascii "http://localhost:9200"⟩ (ascii "products") (ascii "item") (ascii "42") []
      _ ⟨ascii "200 OK", 200,
          .ok (.object [(ascii "ok", .bool true), (ascii "found", .bool false)])⟩
      { OK := true } rfl rfl rfl rfl rfl).1⟩

/-- C7: `Index` returns either `(id, nil)` or `("", err)`, and `Delete`
either `(found, nil)` or `(false, err)`. A failure of serialisation, of
request construction, of the transport or of response handling is the
error returned, with the zero value beside it; only when every step
succeeds is the envelope's `_id` (or `found`) returned with a nil error. -/
theorem no_partial_success {Doc : Type} (lib : JSONLib) (net : Net Doc)
    (es : ElasticSearch) (index doctype id : GoString) (doc : Doc) (params : Params) :
    ((∃ newId, es.Index lib net index doctype id doc params = (newId, none)) ∨
     (∃ err, es.Index lib net index doctype id doc params = ([], some err))) ∧
    (∀ err, net.Marshal doc = .error err →
      es.Index lib net index doctype id doc params = ([], some err)) ∧
    (∀ data err, net.Marshal doc = .ok data →
      net.Post (es.mkURL index doctype id params) (ascii "application/json") data = .error err →
      es.Index lib net index doctype id doc params = ([], some err)) ∧
    (∀ data resp err, net.Marshal doc = .ok data →
      net.Post (es.mkURL index doctype id params) (ascii "application/json") data = .ok resp →
      handleResponse lib resp = .error err →
      es.Index lib net index doctype id doc params = ([], some err)) ∧
    (∀ data resp env, net.Marshal doc = .ok data →
      net.Post (es.mkURL index doctype id params) (ascii "application/json") data = .ok resp →
      handleResponse lib resp = .ok env →
      es.Index lib net index doctype id doc params = (env.Id, none)) ∧
    ((∃ found, es.Delete lib net index doctype id params = (found, none)) ∨
     (∃ err, es.Delete lib net index doctype id params = (false, some err))) ∧
    (∀ err, net.NewRequest (ascii "DELETE") (es.mkURL index doctype id params) = .error err →
      es.Delete lib net index doctype id params = (false, some err)) ∧
    (∀ req err, net.NewRequest (ascii "DELETE") (es.mkURL index doctype id params) = .ok req →
      net.Do req = .error err →
      es.Delete lib net index doctype id params = (false, some err)) ∧
    (∀ req resp err,
      net.NewRequest (ascii "DELETE") (es.mkURL index doctype id params) = .ok req →
      net.Do req = .ok resp → handleResponse lib resp = .error err →
      es.Delete lib net index doctype id params = (false, some err)) ∧
    (∀ req resp env,
      net.NewRequest (ascii "DELETE") (es.mkURL index doctype id params) = .ok req →
      net.Do req = .ok resp → handleResponse lib resp = .ok env →
      es.Delete lib net index doctype id params = (env.Found, none)) := by
  refine ⟨?_, ?_, ?_, ?_, ?_, ?_, ?_, ?_, ?_, ?_⟩
  · unfold ElasticSearch.Index
    cases net.Marshal doc with
    | error e => exact Or.inr ⟨e, rfl⟩
    | ok data =>
      simp only []
      cases net.Post (es.mkURL index doctype id params) (ascii "application/json") data with
      | error e => exact Or.inr ⟨e, rfl⟩
      | ok resp =>
        simp only []
        cases handleResponse lib resp with
        | error e => exact Or.inr ⟨e, rfl⟩
        | ok env => exact Or.inl ⟨env.Id, rfl⟩
  · intro err hm
    unfold ElasticSearch.Index; rw [hm]
  · intro data err hm hp
    unfold ElasticSearch.Index; rw [hm]; simp only []; rw [hp]
  · intro data resp err hm hp hh
    unfold ElasticSearch.Index; rw [hm]; simp only []; rw [hp]; simp only []; rw [hh]
  · intro data resp env hm hp hh
    unfold ElasticSearch.Index; rw [hm]; simp only []; rw [hp]; simp only []; rw [hh]
  · unfold ElasticSearch.Delete
    cases net.NewRequest (ascii "DELETE") (es.mkURL index doctype id params) with
    | error e => exact Or.inr ⟨e, rfl⟩
    | ok req =>
      simp only []
      cases net.Do req with
      | error e => exact Or.inr ⟨e, rfl⟩
      | ok resp =>
        simp only []
        cases handleResponse lib resp with
        | error e => exact Or.inr ⟨e, rfl⟩
        | ok env => exact Or.inl ⟨env.Found, rfl⟩
  · intro err hr
    unfold ElasticSearch.Delete; rw [hr]
  · intro req err hr hp
    unfold ElasticSearch.Delete; rw [hr]; simp only []; rw [hp]
  · intro req resp err hr hp hh
    unfold ElasticSearch.Delete; rw [hr]; simp only []; rw [hp]; simp only []; rw [hh]
  · intro req resp env hr hp hh
    unfold ElasticSearch.Delete; rw [hr]; simp only []; rw [hp]; simp only []; rw [hh]

theorem no_partial_success_witness :
    (ElasticSearch.Index asciiLib (fixedNet ⟨ascii "503 Service Unavailable", 503,
          .ok envelope42⟩)
        ⟨ascii "http://localhost:9200"⟩ (ascii "products") (ascii "item") (ascii "42")
        JValue.null []
      = ([], some (.errorString (ascii "503 Service Unavailable")))) ∧
    (ElasticSearch.Delete asciiLib (fixedNet ⟨ascii "200 OK", 200, .ok envelope42⟩)
        ⟨ascii "http://localhost:9200"⟩ (ascii "products") (ascii "item") (ascii "42") []
      = (true, none)) :=
  ⟨(no_partial_success asciiLib (fixedNet ⟨ascii "503 Service Unavailable", 503,
          .ok envelope42⟩)
      ⟨ascii "http://localhost:9200"⟩ (ascii "products") (ascii "item") (ascii "42")
      JValue.null []).2.2.2.1 _ _ _ rfl rfl rfl,
   (no_partial_success asciiLib (fixedNet ⟨ascii "200 OK", 200, .ok envelope42⟩)
      ⟨ascii "http://localhost:9200"⟩ (ascii "products") (ascii "item") (ascii "42")
      JValue.null []).2.2.2.2.2.2.2.2.2 _ _ _ rfl rfl rfl⟩

/-! ## The `ok` member of the envelope -/

theorem findField_OK_iff (lib : JSONLib) (key : GoString) :
    findField lib key = some .OK ↔
      key = ascii "ok" ∨ ((∀ f ∈ response.fields, f.tag ≠ key) ∧
        lib.foldName (ascii "ok") = lib.foldName key) := by
  by_cases h0 : key = ascii "ok"
  · subst h0
    exact ⟨fun _ => Or.inl rfl, fun _ => rfl⟩
  · have hne : ∀ f, f ∈ [Field.Index, Field.Type_, Field.Id, Field.Found, Field.Source] →
        f ≠ Field.OK := by
      intro f hf
      simp only [List.mem_cons, List.mem_singleton, List.not_mem_nil, or_false] at hf
      rcases hf with h | h | h | h | h <;> subst h <;> decide
    have hfields : response.fields =
        Field.OK :: [Field.Index, Field.Type_, Field.Id, Field.Found, Field.Source] := rfl
    have htag : Field.OK.tag = ascii "ok" := rfl
    unfold findField
    cases hex : response.fields.find? (fun f => f.tag = key) with
    | some f =>
      simp only []
      have hp := List.find?_some hex
      have hfk : f.tag = key := by simpa using hp
      constructor
      · intro hf
        injection hf with hf
        subst hf
        exact absurd hfk.symm h0
      · rintro (h | ⟨h, _⟩)
        · exact absurd h h0
        · exact absurd hfk (h f (List.mem_of_find?_eq_some hex))
    | none =>
      simp only []
      have hall : ∀ f ∈ response.fields, f.tag ≠ key := by
        intro f hf
        have := List.find?_eq_none.1 hex f hf
        simpa using this
      rw [hfields, List.find?_cons]
      by_cases hfold : lib.foldName (ascii "ok") = lib.foldName key
      · have : decide (lib.foldName Field.OK.tag = lib.foldName key) = true := by
          rw [htag]; exact decide_eq_true hfold
        rw [this]
        exact ⟨fun _ => Or.inr ⟨hall, hfold⟩, fun _ => rfl⟩
      · have : decide (lib.foldName Field.OK.tag = lib.foldName key) = false := by
          rw [htag]; exact decide_eq_false hfold
        rw [this]
        simp only []
        constructor
        · intro hf
          exact absurd rfl (hne _ (List.mem_of_find?_eq_some hf))
        · rintro (h | ⟨_, h⟩)
          · exact absurd h h0
          · exact absurd h hfold

theorem decodeMembers_cons (lib : JSONLib) (kv : GoString × JValue)
    (ms : List (GoString × JValue)) (start : response × Option GoError) :
    decodeMembers lib (kv :: ms) start =
      decodeMembers lib ms
        (match findField lib kv.1 with
         | none => start
         | some f => ((setField lib start.1 f kv.2).1,
             start.2.orElse (fun _ => (setField lib start.1 f kv.2).2))) := by
  unfold decodeMembers
  rw [List.foldl_cons]

theorem setField_OK_of_ne (lib : JSONLib) (r : response) (f : Field) (v : JValue)
    (hf : f ≠ .OK) : (setField lib r f v).1.OK = r.OK := by
  cases f <;> first | exact absurd rfl hf | rfl

theorem setField_OK_true (lib : JSONLib) (r : response) (v : JValue)
    (h : (setField lib r .OK v).1.OK = true) : r.OK = true ∨ v = .bool true := by
  cases v with
  | bool b => right; simpa [setField, storeBool] using h
  | null => left; simpa [setField, storeBool] using h
  | number l => left; simpa [setField, storeBool] using h
  | string l => left; simpa [setField, storeBool] using h
  | array l => left; simpa [setField, storeBool] using h
  | object l => left; simpa [setField, storeBool] using h

theorem decodeMembers_OK_of_absent (lib : JSONLib) (ms : List (GoString × JValue))
    (start : response × Option GoError)
    (h : ∀ kv ∈ ms, findField lib kv.1 ≠ some .OK) :
    (decodeMembers lib ms start).1.OK = start.1.OK := by
  induction ms generalizing start with
  | nil => rfl
  | cons kv ms ih =>
    rw [decodeMembers_cons, ih _ (fun kv' hkv' => h kv' (List.mem_cons_of_mem _ hkv'))]
    have hkv := h kv (List.mem_cons_self _ _)
    cases hf : findField lib kv.1 with
    | none => rfl
    | some f =>
      have hne : f ≠ .OK := fun hc => hkv (by rw [hf, hc])
      exact setField_OK_of_ne lib start.1 f kv.2 hne

theorem decodeMembers_OK_true (lib : JSONLib) (ms : List (GoString × JValue))
    (start : response × Option GoError)
    (h : (decodeMembers lib ms start).1.OK = true) :
    start.1.OK = true ∨ ∃ kv ∈ ms, findField lib kv.1 = some .OK ∧ kv.2 = .bool true := by
  induction ms generalizing start with
  | nil => exact Or.inl h
  | cons kv ms ih =>
    rw [decodeMembers_cons] at h
    rcases ih _ h with h1 | ⟨kv', hmem, hkv'⟩
    · cases hf : findField lib kv.1 with
      | none => rw [hf] at h1; exact Or.inl h1
      | some f =>
        rw [hf] at h1
        by_cases hOK : f = .OK
        · subst hOK
          rcases setField_OK_true lib start.1 kv.2 h1 with h2 | h2
          · exact Or.inl h2
          · exact Or.inr ⟨kv, List.mem_cons_self _ _, hf, h2⟩
        · exact Or.inl (by rw [← setField_OK_of_ne lib start.1 f kv.2 hOK]; exact h1)
    · exact Or.inr ⟨kv', List.mem_cons_of_mem _ hmem, hkv'⟩

theorem Unmarshal_object (lib : JSONLib) (ms : List (GoString × JValue)) (env : response)
    (h : Unmarshal lib (.object ms) = .ok env) :
    env = (decodeMembers lib ms ({}, none)).1 := by
  unfold Unmarshal at h
  simp only [] at h
  generalize decodeMembers lib ms ({}, none) = res at h
  obtain ⟨r, e⟩ := res
  cases e with
  | none => simp only [] at h; injection h with h; exact h.symm
  | some e => simp only [] at h; cases h

/-- C9, as the code has it: for a response with status 200 whose body is a
JSON object in which no member selects the `ok` field, `handleResponse`
never succeeds: it fails with "Response wasn't OK" when the members decode,
and with the decoding error when one of them does not fit its field. It
succeeds on an object only if some member that selects the `ok` field has
the value `true`. A member selects `ok` when its name is `ok`, or equals no
tag and matches `ok` under case folding. -/
theorem handleResponse_ok_absent (lib : JSONLib) (resp : Response)
    (members : List (GoString × JValue))
    (hs : resp.StatusCode = 200) (hb : resp.Body = .ok (.object members)) :
    ((∀ kv ∈ members, findField lib kv.1 ≠ some .OK) →
      (∀ env, Decode lib resp.Body = .ok env →
        handleResponse lib resp = .error (.errorString (ascii "Response wasn't OK"))) ∧
      (∀ err, Decode lib resp.Body = .error err → handleResponse lib resp = .error err)) ∧
    (∀ env, handleResponse lib resp = .ok env →
      ∃ kv ∈ members, findField lib kv.1 = some .OK ∧ kv.2 = .bool true) ∧
    (∀ key, findField lib key = some .OK ↔
      key = ascii "ok" ∨ ((∀ f ∈ response.fields, f.tag ≠ key) ∧
        lib.foldName (ascii "ok") = lib.foldName key)) := by
  refine ⟨fun habs => ⟨fun env hd => ?_, fun err hd => ?_⟩, fun env hh => ?_, fun key => ?_⟩
  · rw [handleResponse_of_decode_ok lib resp env hs hd]
    have henv : env = (decodeMembers lib members ({}, none)).1 := by
      rw [hb] at hd; exact Unmarshal_object lib members env hd
    have hOK : env.OK = false := by
      rw [henv, decodeMembers_OK_of_absent lib members _ habs]
    rw [hOK]; rfl
  · exact handleResponse_of_decode_error lib resp err hs hd
  · cases hd : Decode lib resp.Body with
    | error e => rw [handleResponse_of_decode_error lib resp e hs hd] at hh; cases hh
    | ok env' =>
      rw [handleResponse_of_decode_ok lib resp env' hs hd] at hh
      have hOK : env'.OK = true := by
        cases h : env'.OK with
        | true => rfl
        | false => rw [h] at hh; cases hh
      have henv : env' = (decodeMembers lib members ({}, none)).1 := by
        rw [hb] at hd; exact Unmarshal_object lib members env' hd
      rw [henv] at hOK
      rcases decodeMembers_OK_true lib members _ hOK with h | h
      · cases h
      · exact h
  · exact findField_OK_iff lib key

theorem handleResponse_ok_absent_witness :
    handleResponse asciiLib ⟨ascii "200 OK", 200,
      .ok (.object [(ascii "_index", .string (ascii "products")),
        (ascii "_type", .string (ascii "item")), (ascii "_id", .string (ascii "42")),
        (ascii "found", .bool true)])⟩
      = .error (.errorString (ascii "Response wasn't OK")) :=
  ((handleResponse_ok_absent asciiLib ⟨ascii "200 OK", 200,
      .ok (.object [(ascii "_index", .string (ascii "products")),
        (ascii "_type", .string (ascii "item")), (ascii "_id", .string (ascii "42")),
        (ascii "found", .bool true)])⟩ _ rfl rfl).1 (by decide)).1
    { Index := ascii "products", Type_ := ascii "item", Id := ascii "42", Found := true } rfl

/-- C9 as stated fails: the body `{"_id": 42}` is a JSON object with no
`ok` member, and `handleResponse` returns the type error of the decoder,
not "Response wasn't OK"; and the body `{"OK": true}`, which has no member
named `ok`, is accepted, because member names match tags without regard to
case. -/
theorem handleResponse_ok_absent_counterexample :
    ¬ (∀ (lib : JSONLib) (resp : Response) (members : List (GoString × JValue)),
        resp.StatusCode = 200 → resp.Body = .ok (.object members) →
        (∀ kv ∈ members, kv.1 ≠ ascii "ok") →
        handleResponse lib resp = .error (.errorString (ascii "Response wasn't OK"))) ∧
    handleResponse asciiLib ⟨ascii "200 OK", 200,
        .ok (.object [(ascii "_id", .number (ascii "42"))])⟩
      = .error (.UnmarshalTypeError (ascii "number") (ascii "_id")) ∧
    handleResponse asciiLib ⟨ascii "200 OK", 200,
        .ok (.object [(ascii "OK", .bool true)])⟩
      = .ok { OK := true } := by
  refine ⟨fun h => ?_, rfl, rfl⟩
  have h1 := h asciiLib ⟨ascii "200 OK", 200,
    .ok (.object [(ascii "_id", .number (ascii "42"))])⟩ _ rfl rfl (by decide)
  have h2 : handleResponse asciiLib ⟨ascii "200 OK", 200,
      .ok (.object [(ascii "_id", .number (ascii "42"))])⟩
      = .error (.UnmarshalTypeError (ascii "number") (ascii "_id")) := rfl
  rw [h2] at h1
  injection h1 with h1
  cases h1

/-! ## Bodies that do not decode -/

theorem setField_error_of_not_accepts (lib : JSONLib) (r : response) (f : Field) (v : JValue)
    (h : f.accepts v = false) :
    (setField lib r f v).2 = some (.UnmarshalTypeError v.kind f.tag) := by
  cases f <;> cases v <;> first | rfl | cases h

theorem decodeMembers_error_kept (lib : JSONLib) (ms : List (GoString × JValue))
    (start : response × Option GoError) (e : GoError) (h : start.2 = some e) :
    (decodeMembers lib ms start).2 = some e := by
  induction ms generalizing start with
  | nil => exact h
  | cons kv ms ih =>
    rw [decodeMembers_cons]
    apply ih
    cases findField lib kv.1 with
    | none => exact h
    | some f => simp only []; rw [h]; rfl

theorem decodeMembers_error_of_member (lib : JSONLib) (ms : List (GoString × JValue))
    (start : response × Option GoError) (kv : GoString × JValue) (f : Field)
    (hm : kv ∈ ms) (hf : findField lib kv.1 = some f) (ha : f.accepts kv.2 = false) :
    ∃ e, (decodeMembers lib ms start).2 = some e := by
  induction ms generalizing start with
  | nil => cases hm
  | cons kv' ms ih =>
    rw [decodeMembers_cons]
    rcases List.mem_cons.1 hm with heq | hmem
    · subst heq
      rw [hf]
      simp only []
      rw [setField_error_of_not_accepts lib start.1 f kv.2 ha]
      cases hs : start.2 with
      | none =>
        exact ⟨.UnmarshalTypeError kv.2.kind f.tag,
          decodeMembers_error_kept lib ms _ _ (by simp [hs, Option.orElse])⟩
      | some e0 => exact ⟨_, decodeMembers_error_kept lib ms _ e0 (by simp [hs, Option.orElse])⟩
    · exact ih _ hmem

theorem Unmarshal_error_of_member (lib : JSONLib) (ms : List (GoString × JValue))
    (kv : GoString × JValue) (f : Field)
    (hm : kv ∈ ms) (hf : findField lib kv.1 = some f) (ha : f.accepts kv.2 = false) :
    ∃ e, Unmarshal lib (.object ms) = .error e := by
  obtain ⟨e, he⟩ := decodeMembers_error_of_member lib ms ({}, none) kv f hm hf ha
  refine ⟨e, ?_⟩
  unfold Unmarshal
  simp only []
  generalize decodeMembers lib ms ({}, none) = res at he
  obtain ⟨r, e'⟩ := res
  simp only [] at he
  subst he
  rfl

/-- C6, as the code has it: for a response with status 200, a failure of
`Decode` on the body is what `handleResponse` returns, with no envelope;
`Index` then returns the empty string with that error and `Delete` false
with that error. `Decode` fails when the body is not valid JSON (the error
of the scanner), when its value is a boolean, number, string or array, and
when it is an object with a member that selects a field and whose value
the field does not accept. The body `null` is accepted by `Decode` although
it is no envelope, and is rejected with "Response wasn't OK". -/
theorem handleResponse_decode_failure {Doc : Type} (lib : JSONLib) (net : Net Doc)
    (es : ElasticSearch) (index doctype id : GoString) (doc : Doc) (params : Params)
    (resp : Response) (hs : resp.StatusCode = 200) :
    (∀ err, Decode lib resp.Body = .error err →
      handleResponse lib resp = .error err ∧
      (∀ data, net.Marshal doc = .ok data →
        net.Post (es.mkURL index doctype id params) (ascii "application/json") data
          = .ok resp →
        es.Index lib net index doctype id doc params = ([], some err)) ∧
      (∀ req, net.NewRequest (ascii "DELETE") (es.mkURL index doctype id params) = .ok req →
        net.Do req = .ok resp →
        es.Delete lib net index doctype id params = (false, some err))) ∧
    (∀ err, resp.Body = .error err → Decode lib resp.Body = .error err) ∧
    (∀ v, resp.Body = .ok v → v ≠ .null → (∀ members, v ≠ .object members) →
      Decode lib resp.Body = .error (.UnmarshalTypeError v.kind (ascii "response"))) ∧
    (∀ members kv f, resp.Body = .ok (.object members) → kv ∈ members →
      findField lib kv.1 = some f → f.accepts kv.2 = false →
      ∃ err, Decode lib resp.Body = .error err) ∧
    (resp.Body = .ok .null →
      handleResponse lib resp = .error (.errorString (ascii "Response wasn't OK"))) := by
  refine ⟨fun err hd => ?_, fun err hb => ?_, fun v hb hnull hobj => ?_,
    fun members kv f hb hm hf ha => ?_, fun hb => ?_⟩
  · have h := handleResponse_of_decode_error lib resp err hs hd
    refine ⟨h, fun data hm hp => ?_, fun req hr hp => ?_⟩
    · unfold ElasticSearch.Index
      rw [hm]; simp only []
      rw [hp]; simp only []
      rw [h]
    · unfold ElasticSearch.Delete
      rw [hr]; simp only []
      rw [hp]; simp only []
      rw [h]
  · rw [hb]; rfl
  · rw [hb]
    cases v with
    | null => exact absurd rfl hnull
    | object members => exact absurd rfl (hobj members)
    | bool b => rfl
    | number l => rfl
    | string l => rfl
    | array l => rfl
  · rw [hb]
    exact Unmarshal_error_of_member lib members kv f hm hf ha
  · have hd : Decode lib resp.Body = .ok {} := by rw [hb]; rfl
    rw [handleResponse_of_decode_ok lib resp {} hs hd]
    rfl

theorem handleResponse_decode_failure_witness :
    (handleResponse asciiLib ⟨ascii "200 OK", 200,
        .error (.other (ascii "unexpected end of JSON input"))⟩
      = .error (.other (ascii "unexpected end of JSON input"))) ∧
    (ElasticSearch.Index asciiLib (fixedNet ⟨ascii "200 OK", 200,
          .ok (.object [(ascii "ok", .string (ascii "yes"))])⟩)
        ⟨ascii "http://localhost:9200"⟩ (ascii "products") (ascii "item") (ascii "42")
        JValue.null []
      = ([], some (.UnmarshalTypeError (ascii "string") (ascii "ok")))) ∧
    (ElasticSearch.Delete asciiLib (fixedNet ⟨ascii "200 OK", 200, .ok (.array [])⟩)
        ⟨ascii "http://localhost:9200"⟩ (ascii "products") (ascii "item") (ascii "42") []
      = (false, some (.UnmarshalTypeError (ascii "array") (ascii "response")))) ∧
    (∃ err, Decode asciiLib (.ok (.object [(ascii "ok", .bool true),
        (ascii "_id", .number (ascii "7"))])) = .error err) :=
  ⟨((handleResponse_decode_failure asciiLib (fixedNet ⟨ascii "200 OK", 200,
        .error (.other (ascii "unexpected end of JSON input"))⟩)
      ⟨[]⟩ [] [] [] JValue.null []
      ⟨ascii "200 OK", 200, .error (.other (ascii "unexpected end of JSON input"))⟩ rfl).1
      (.other (ascii "unexpected end of JSON input")) rfl).1,
   ((handleResponse_decode_failure asciiLib (fixedNet ⟨ascii "200 OK", 200,
          .ok (.object [(ascii "ok", .string (ascii "yes"))])⟩)
      ⟨ascii "http://localhost:9200"⟩ (ascii "products") (ascii "item") (ascii "42")
      JValue.null [] ⟨ascii "200 OK", 200, .ok (.object [(ascii "ok", .string (ascii "yes"))])⟩
      rfl).1 (.UnmarshalTypeError (ascii "string") (ascii "ok")) rfl).2.1 _ rfl rfl,
   ((handleResponse_decode_failure asciiLib (fixedNet ⟨ascii "200 OK", 200, .ok (.array [])⟩)
      ⟨ascii "http://localhost:9200"⟩ (ascii "products") (ascii "item") (ascii "42")
      JValue.null [] ⟨ascii "200 OK", 200, .ok (.array [])⟩
      rfl).1 (.UnmarshalTypeError (ascii "array") (ascii "response")) rfl).2.2 _ rfl rfl,
   (handleResponse_decode_failure asciiLib (fixedNet ⟨ascii "200 OK", 200, .ok (.object
          [(ascii "ok", .bool true), (ascii "_id", .number (ascii "7"))])⟩)
      ⟨[]⟩ [] [] [] JValue.null []
      ⟨ascii "200 OK", 200, .ok (.object
          [(ascii "ok", .bool true), (ascii "_id", .number (ascii "7"))])⟩ rfl).2.2.2.1
      _ (ascii "_id", .number (ascii "7")) .Id rfl (by simp) rfl rfl⟩

/-- C6 as stated fails: the body `null` is not an envelope, yet `Decode`
accepts it (the struct keeps its zero value), so `handleResponse` reports
"Response wasn't OK" and no decoding error. -/
theorem handleResponse_malformed_body_counterexample :
    matchesEnvelopeSpec .null = false ∧
    handleResponse asciiLib ⟨ascii "200 OK", 200, .ok .null⟩
      = .error (.errorString (ascii "Response wasn't OK")) ∧
    ¬ (∀ (lib : JSONLib) (resp : Response), resp.StatusCode = 200 →
        (∀ v, resp.Body = .ok v → matchesEnvelopeSpec v = false) →
        ∃ err, Decode lib resp.Body = .error err ∧ handleResponse lib resp = .error err) := by
  refine ⟨rfl, rfl, fun h => ?_⟩
  obtain ⟨err, hd, _⟩ := h asciiLib ⟨ascii "200 OK", 200, .ok .null⟩ rfl
    (fun v hv => by
      have hv' : (Except.ok JValue.null : Except GoError JValue) = .ok v := hv
      injection hv' with hv'
      subst hv'
      rfl)
  have hd' : Decode asciiLib (.ok .null) = .ok {} := rfl
  have hd2 : Decode asciiLib (.ok .null) = .error err := hd
  rw [hd'] at hd2
  cases hd2

end Elasticsearch
